import Mathlib

/-!
Verification of the presence-synchronization core of the react-miami-game
repository against its natural-language specification.

The development shallowly embeds, in Lean:
  * the Discovery Broker (src/apps/game-server/src/moq-broker-party.ts):
    its registry (a JS `Map<string, MoQParticipant>` modelled as an
    insertion-ordered list with unique ids) and the handlers
    `handleJoin`, `handleLeave`, `handleHeartbeat`, `sendBrokerUpdate`;
  * the client-side broker-message filter and the watch-broadcast retry and
    cleanup logic (src/apps/game-front/src/hooks/useMoQGameStream.ts);
  * the presence reconciler of the OtherPlayers / OtherPlayer component
    (src/unnamed/part_001): the `sync-presence` spread-merge, the per-frame
    dead-reckoning step of `useFrame`, and the render cap;
  * the Resilient Channel backoff, modelled from the spec (its source is the
    hang framework's connection.ts, which is not part of this repository;
    only its documentation is, under src/hang-framework-docs/).

Positions, velocities and timestamps are modelled over `ℚ` (the JS numbers
involved are only added, scaled and compared).
-/

/-- A 3-component vector (THREE.Vector3 over ℚ). -/
structure Vec3 where
  x : ℚ
  y : ℚ
  z : ℚ
deriving DecidableEq

/-- A quaternion (x, y, z, w), as stored in `presence.rot`. -/
structure Quat where
  x : ℚ
  y : ℚ
  z : ℚ
  w : ℚ
deriving DecidableEq

/-- A 2-component vector, as stored in `presence.wheel`. -/
structure Vec2 where
  x : ℚ
  y : ℚ
deriving DecidableEq

/-- Componentwise vector addition (THREE.Vector3.add). -/
def Vec3.add (a b : Vec3) : Vec3 :=
  ⟨a.x + b.x, a.y + b.y, a.z + b.z⟩

/-- Scaling a vector by a scalar (THREE.Vector3.multiplyScalar). -/
def Vec3.scale (c : ℚ) (a : Vec3) : Vec3 :=
  ⟨c * a.x, c * a.y, c * a.z⟩

/-- THREE.Vector3.lerp: each component moves toward the target by the factor
`t` (`this.x += (v.x - this.x) * alpha`). -/
def Vec3.lerp (a b : Vec3) (t : ℚ) : Vec3 :=
  ⟨a.x + (b.x - a.x) * t, a.y + (b.y - a.y) * t, a.z + (b.z - a.z) * t⟩

/-- The zero vector. -/
def Vec3.zero : Vec3 := ⟨0, 0, 0⟩

/-- One participant of the broker registry (interface MoQParticipant in
moq-broker-party.ts). -/
structure MoQParticipant where
  id : String
  playerName : String
  moqPath : String
  joinedAt : ℕ
  lastSeen : ℕ
deriving DecidableEq

/-- The broker's per-room state: `participants: Map<string, MoQParticipant>`.
A JS Map is insertion ordered and `set` on an existing key keeps its
position, so it is modelled as a list whose ids are unique. -/
structure BrokerState where
  participants : List MoQParticipant
deriving DecidableEq

/-- The empty registry (a freshly created MoQBrokerParty). -/
def BrokerState.empty : BrokerState := ⟨[]⟩

/-- JS `Map.set` semantics on the id-keyed participant list: replace the
participant in place if the id is present, otherwise append. -/
def mapSet (l : List MoQParticipant) (p : MoQParticipant) : List MoQParticipant :=
  if l.any (fun q => q.id = p.id) then
    l.map (fun q => if q.id = p.id then p else q)
  else
    l ++ [p]

/-- JS `Map.get` semantics: the first (only) participant with the id. -/
def brokerLookup (st : BrokerState) (id : String) : Option MoQParticipant :=
  st.participants.find? (fun q => q.id = id)

/-- Payload of a `join` message (moq-broker-party.ts, BrokerMessage). -/
structure JoinMsg where
  id : String
  playerName : String
  moqPath : String
deriving DecidableEq

/-- MoQBrokerParty.handleJoin: build a participant with `joinedAt` and
`lastSeen` both set to `Date.now()` (`now`), store it with `Map.set`, and
call `broadcastUpdate()`.  The returned Bool records whether a broadcast to
all connections happened; the source calls `this.broadcastUpdate()`
unconditionally. -/
def handleJoin (msg : JoinMsg) (now : ℕ) (st : BrokerState) : BrokerState × Bool :=
  let participant : MoQParticipant :=
    ⟨msg.id, msg.playerName, msg.moqPath, now, now⟩
  (⟨mapSet st.participants participant⟩, true)

/-- MoQBrokerParty.handleLeave: delete the participant if present and then
broadcast; no broadcast when the id is unknown. -/
def handleLeave (id : String) (st : BrokerState) : BrokerState × Bool :=
  match brokerLookup st id with
  | some _ => (⟨st.participants.filter (fun q => q.id ≠ id)⟩, true)
  | none => (st, false)

/-- MoQBrokerParty.handleHeartbeat: refresh `lastSeen` of an existing
participant; never broadcasts. -/
def handleHeartbeat (id : String) (now : ℕ) (st : BrokerState) : BrokerState :=
  ⟨st.participants.map (fun q => if q.id = id then { q with lastSeen := now } else q)⟩

/-- The broker_update message (interface BrokerUpdate in
moq-broker-party.ts). -/
structure BrokerUpdate where
  participants : List MoQParticipant
  totalConnections : ℕ
  activeCount : ℕ
deriving DecidableEq

/-- MoQBrokerParty.sendBrokerUpdate / broadcastUpdate: both serialize
`Array.from(this.participants.values())` with stats; no per-connection
filtering of any kind is performed.  `conns` is the number of live
connections of the room. -/
def sendBrokerUpdate (conns : ℕ) (st : BrokerState) : BrokerUpdate :=
  ⟨st.participants, conns, st.participants.length⟩

/-- Client-side filter applied by useMoQGameStream's onMessage handler to
every received broker_update: `data.participants.filter(p => p.id !==
playerId)`. -/
def clientFilterParticipants (playerId : String) (ps : List MoQParticipant) :
    List MoQParticipant :=
  ps.filter (fun p => p.id ≠ playerId)

/-- A full presence sample (PresenceType of game-schemas), as read by the
OtherPlayer frame loop: `pos`, `rot`, `vel`, `wheel`, `timestamp`. -/
structure Presence where
  pos : Vec3
  rot : Quat
  vel : Vec3
  wheel : Vec2
  timestamp : ℚ
deriving DecidableEq

/-- Per-remote-player mutable state of the OtherPlayer component: the
`carVectors` memo (`originTimestamp`, `positionCurrent`, `velocity`,
`wheelRotation.current`, `visibleSteering.current`) together with the THREE
group driven by it (`playerRef.current.position`, here `smoothedPosition`,
and `playerRef.current.quaternion`). -/
structure FrameState where
  originTimestamp : ℚ
  positionCurrent : Vec3
  velocity : Vec3
  smoothedPosition : Vec3
  quaternion : Quat
  wheelRotation : ℚ
  visibleSteering : ℚ
deriving DecidableEq

/-- The initial OtherPlayer state: `originTimestamp: 0` and zero vectors in
the `carVectors` memo; the THREE group starts at the origin with the
identity quaternion. -/
def initFrameState : FrameState :=
  ⟨0, Vec3.zero, Vec3.zero, Vec3.zero, ⟨0, 0, 0, 1⟩, 0, 0⟩

/-- Lines 178-182 of src/unnamed/part_001: when the incoming sample's
timestamp differs from the stored `originTimestamp` (JS `!==`), copy the
sample's `vel` and `pos` into the waypoint and store its timestamp;
otherwise leave the waypoint alone. -/
def applyWaypoint (p : Presence) (st : FrameState) : FrameState :=
  if st.originTimestamp ≠ p.timestamp then
    { st with
      velocity := p.vel
      positionCurrent := p.pos
      originTimestamp := p.timestamp }
  else st

/-- One `useFrame` tick of OtherPlayer with elapsed time `delta` and the
presence currently stored for the id (`none` when `presenceRef.current[id]`
is absent: the frame returns early).  After the waypoint check, the code
advances `positionCurrent` by `velocity * delta`, lerps the group position
toward it with factor `min(delta * 10, 1)`, and applies `rot` and `wheel`
directly. -/
def useFrameStep (presence : Option Presence) (delta : ℚ) (st : FrameState) :
    FrameState :=
  match presence with
  | none => st
  | some p =>
    let st1 := applyWaypoint p st
    let deltaVelocity := Vec3.scale delta st1.velocity
    let positionCurrent := Vec3.add st1.positionCurrent deltaVelocity
    let smoothed := Vec3.lerp st1.smoothedPosition positionCurrent (min (delta * 10) 1)
    { st1 with
      positionCurrent := positionCurrent
      smoothedPosition := smoothed
      quaternion := p.rot
      wheelRotation := p.wheel.x
      visibleSteering := p.wheel.y }

/-- A sequence of render ticks with elapsed times `ds`, the stored presence
unchanged throughout (no new sample delivered). -/
def runFrames (presence : Option Presence) (ds : List ℚ) (st : FrameState) :
    FrameState :=
  ds.foldl (fun s d => useFrameStep presence d s) st

/-- The sample of spec Scenario B: position (0,0,0), velocity (1,0,0),
timestamp 100. -/
def sampleB : Presence :=
  ⟨Vec3.zero, ⟨0, 0, 0, 1⟩, ⟨1, 0, 0⟩, ⟨0, 0⟩, 100⟩

/-- A partial presence object, as carried by a `sync-presence` delta: a JS
object in which any of the PresenceType keys may be absent. -/
structure PresenceP where
  name : Option String
  pos : Option Vec3
  rot : Option Quat
  vel : Option Vec3
  wheel : Option Vec2
  timestamp : Option ℚ
deriving DecidableEq

/-- The empty JS object `{}` used for `presenceRef.current[id] || {}`. -/
def PresenceP.empty : PresenceP := ⟨none, none, none, none, none, none⟩

/-- Key selection of the JS object spread `{...old, ...nw}`: the new
object's value when the key is present there, else the old one. -/
def pickField {α : Type} (nw old : Option α) : Option α :=
  match nw with
  | some v => some v
  | none => old

/-- JS spread merge `{...old, ...nw}` over the PresenceType keys. -/
def spreadMerge (old nw : PresenceP) : PresenceP :=
  ⟨pickField nw.name old.name, pickField nw.pos old.pos,
    pickField nw.rot old.rot, pickField nw.vel old.vel,
    pickField nw.wheel old.wheel, pickField nw.timestamp old.timestamp⟩

/-- The client's presence store `presenceRef.current`, id to stored object
(entries created from deltas may lack keys, hence PresenceP). -/
def PresenceStore : Type := String → Option PresenceP

/-- The store with no entries. -/
def emptyStore : PresenceStore := fun _ => none

/-- Writing one entry of the store. -/
def setStore (s : PresenceStore) (k : String) (v : PresenceP) : PresenceStore :=
  fun q => if q = k then some v else s q

/-- The `sync-presence` branch of the OtherPlayers message handler
(src/unnamed/part_001 lines 77-89): `delete usersToUpdate[selfId]` drops the
local player's entry, then each remaining `[id, presence]` entry is stored
as `{...(presenceRef.current[id] || {}), ...presence}`.  The delta is the
entry list of a JS object, so its keys are unique. -/
def syncPresence (selfId : String) (delta : List (String × PresenceP))
    (store : PresenceStore) : PresenceStore :=
  let users := delta.filter (fun e => e.1 ≠ selfId)
  users.foldl (fun st e => setStore st e.1 (spreadMerge ((st e.1).getD PresenceP.empty) e.2)) store

/-- The retry delay used by createWatchBroadcast in useMoQGameStream.ts:
`setTimeout(..., 1000 * (retryCount + 1))` scheduled from the failed attempt
with the given `retryCount`. -/
def retryDelayMs (retryCount : ℕ) : ℕ := 1000 * (retryCount + 1)

/-- Recursion of createWatchBroadcast when attempts fail, tracked by
`retryCount`: an attempt at `retryCount = rc` that fails schedules a retry
after `retryDelayMs rc` when `rc < 3`, and otherwise only logs the final
failure.  `fails rc` says whether the attempt made with that retryCount
fails.  The result is the list of retry delays waited, paired with whether
the final-failure log line was emitted.  `fuel` only bounds the recursion;
the guard `rc < 3` stops it after at most four attempts, so `fuel = 4` from
`rc = 0` is never exhausted. -/
def runWatchAux (fails : ℕ → Bool) : ℕ → ℕ → List ℕ × Bool
  | 0, _ => ([], false)
  | fuel + 1, rc =>
    if fails rc then
      if rc < 3 then
        let rest := runWatchAux fails fuel (rc + 1)
        (retryDelayMs rc :: rest.1, rest.2)
      else ([], true)
    else ([], false)

/-- The full retry behaviour of one createWatchBroadcast call chain starting
at `retryCount = 0`. -/
def runWatch (fails : ℕ → Bool) : List ℕ × Bool := runWatchAux fails 4 0

/-- The client-held per-peer bookkeeping of useMoQGameStream relevant to
subscription cleanup: `remoteBroadcastsRef` and `remoteStatesRef` (as the
lists of ids holding an entry), the retries currently sitting in a
`setTimeout` (id of the participant and the `retryCount` the retry will run
with), and the log of createWatchBroadcast connect attempts made. -/
structure ClientState where
  remoteBroadcasts : List String
  remoteStates : List String
  pendingRetries : List (String × ℕ)
  connectAttempts : List String
deriving DecidableEq

/-- cleanupWatchBroadcast (useMoQGameStream.ts lines 313-320): if the id has
a stored watch broadcast, close it and delete the id from both maps;
otherwise nothing happens.  No timer handle is stored anywhere, so the
pending retries are untouched. -/
def cleanupWatchBroadcast (id : String) (st : ClientState) : ClientState :=
  if id ∈ st.remoteBroadcasts then
    { st with
      remoteBroadcasts := st.remoteBroadcasts.erase id
      remoteStates := st.remoteStates.erase id }
  else st

/-- A pending retry timer firing: the scheduled callback logs the retry and
calls createWatchBroadcast again for the participant, i.e. a new connect
attempt happens; the timer itself is spent. -/
def fireRetry (id : String) (rc : ℕ) (st : ClientState) : ClientState :=
  { st with
    pendingRetries := st.pendingRetries.erase (id, rc)
    connectAttempts := st.connectAttempts ++ [id] }

/-- The OtherPlayers render body (src/unnamed/part_001 lines 148-154):
`playerIds.map((id, i) => i < MAX_VEHICLE_INSTANCES - 3 ? <OtherPlayer/> :
null)`; `some id` stands for a mounted OtherPlayer, `none` for `null`. -/
def otherPlayersRender (maxVehicleInstances : ℕ) (playerIds : List String) :
    List (Option String) :=
  (playerIds.enum).map (fun e => if e.1 < maxVehicleInstances - 3 then some e.2 else none)

/-- The ids actually instantiated for rendering. -/
def renderedIds (maxVehicleInstances : ℕ) (playerIds : List String) : List String :=
  (otherPlayersRender maxVehicleInstances playerIds).filterMap (fun o => o)

/-- Modelled from the spec: the Resilient Channel is the hang framework's
`Connection` class, whose source is not part of this repository (only its
documentation, src/hang-framework-docs/connection-documentation.md).  On a
connection failure the current backoff delay doubles, capped at `maxDelay`
(`Math.min(#delay * 2, maxDelay)`, doc line 39). -/
def connectionFailDelay (maxDelay d : ℕ) : ℕ := min (d * 2) maxDelay

/-- Modelled from the spec: `currentBackoffMs` after `n` consecutive
failures, starting from the initial delay `initDelay` (default 1000, with
`maxDelay` default 30000). -/
def connectionDelayAfterFailures (initDelay maxDelay : ℕ) : ℕ → ℕ
  | 0 => initDelay
  | n + 1 => connectionFailDelay maxDelay (connectionDelayAfterFailures initDelay maxDelay n)

/-- Modelled from the spec: a successful connection resets the backoff to
the initial `delay` value (doc line 192, "Success Reset"). -/
def connectionDelayAfterSuccess (initDelay : ℕ) : ℕ := initDelay

/-- Idempotence of the waypoint check: once a sample's timestamp has been
captured, re-checking the same sample changes nothing (shared helper). -/
theorem applyWaypoint_idem (p : Presence) (st : FrameState) :
    applyWaypoint p (applyWaypoint p st) = applyWaypoint p st := by
  unfold applyWaypoint
  by_cases h : st.originTimestamp = p.timestamp <;> simp [h]

/-- A frame step sees the same state whether or not the waypoint of the
current sample was already folded in (shared helper). -/
theorem useFrameStep_applyWaypoint (p : Presence) (d : ℚ) (st : FrameState) :
    useFrameStep (some p) d (applyWaypoint p st) = useFrameStep (some p) d st := by
  simp only [useFrameStep, applyWaypoint_idem]

/-- C1 counterexample: after `join{id:"p1"}`, the update the broker sends to
p1's own connection (`sendBrokerUpdate`, also used as the broadcast body and
the `request_peers` reply) still lists "p1": the broker never excludes the
requesting participant's own id. -/
theorem c1_counterexample :
    ("p1" ∈ ((sendBrokerUpdate 1
        (handleJoin ⟨"p1", "Alice", "game/r/p1"⟩ 5 BrokerState.empty).1).participants.map
        MoQParticipant.id)) := by
  decide

/-- C1 amended: the broker's outbound registry views are unfiltered (the
requester's id is included whenever it is registered); the self-exclusion
happens on the client, whose onMessage handler filters its own `playerId`
out of every received broker_update before storing it. -/
theorem c1_amended_self_filtering_is_client_side (conns : ℕ) (st : BrokerState)
    (playerId : String) :
    (sendBrokerUpdate conns st).participants = st.participants ∧
    playerId ∉
      (clientFilterParticipants playerId
        (sendBrokerUpdate conns st).participants).map MoQParticipant.id := by
  refine ⟨rfl, ?_⟩
  intro h
  simp only [clientFilterParticipants, sendBrokerUpdate, List.mem_map,
    List.mem_filter] at h
  obtain ⟨p, ⟨_, hne⟩, heq⟩ := h
  simp [heq] at hne

/-- C2 counterexample: a second `join` for an id already present in the
registry still triggers a full broadcast (`handleJoin` calls
`broadcastUpdate()` unconditionally), contradicting "a broadcast is
scheduled only when the joining id is not already in the registry". -/
theorem c2_counterexample :
    (brokerLookup (handleJoin ⟨"p1", "Alice", "game/r/p1"⟩ 1 BrokerState.empty).1
        "p1").isSome = true ∧
    (handleJoin ⟨"p1", "Alice", "game/r/p1"⟩ 2
        (handleJoin ⟨"p1", "Alice", "game/r/p1"⟩ 1 BrokerState.empty).1).2 = true := by
  decide

/-- Looking up the joining id after a `Map.set` finds exactly the freshly
built participant (shared helper for the join semantics). -/
theorem find?_mapSet (l : List MoQParticipant) (p : MoQParticipant) :
    (mapSet l p).find? (fun q => q.id = p.id) = some p := by
  unfold mapSet
  by_cases h : l.any (fun q => q.id = p.id)
  · simp only [h, if_true]
    induction l with
    | nil => simp at h
    | cons a l ih =>
      by_cases ha : a.id = p.id
      · simp [ha]
      · have h' : l.any (fun q => q.id = p.id) := by
          simp only [List.any_cons, Bool.or_eq_true, decide_eq_true_eq] at h
          rcases h with h | h
          · exact absurd h ha
          · exact h
        simp only [List.map_cons, List.find?_cons, decide_eq_true_eq]
        rw [if_neg ha]
        simp only [decide_eq_true_eq, ha, decide_False]
        exact ih h'
  · simp only [h, if_false]
    induction l with
    | nil => simp
    | cons a l ih =>
      have ha : ¬ a.id = p.id := by
        intro hq
        exact h (by simp [List.any_cons, hq])
      have h' : ¬ l.any (fun q => q.id = p.id) := by
        intro hq
        exact h (by simp [List.any_cons, hq])
      simpa [List.find?_cons, ha] using ih h'

/-- C2 amended: every `join` call broadcasts the full registry to all
connections, whether or not the id was already registered, and the stored
participant is rebuilt whole with both `joinedAt` and `lastSeen` set to the
current time (so `lastSeen` is refreshed in every case). -/
theorem c2_amended_join_always_broadcasts (msg : JoinMsg) (now : ℕ) (st : BrokerState) :
    (handleJoin msg now st).2 = true ∧
    brokerLookup (handleJoin msg now st).1 msg.id =
      some ⟨msg.id, msg.playerName, msg.moqPath, now, now⟩ := by
  refine ⟨rfl, ?_⟩
  unfold brokerLookup handleJoin
  exact find?_mapSet st.participants ⟨msg.id, msg.playerName, msg.moqPath, now, now⟩

/-- C3 counterexample: a sample whose `timestamp` (3) is strictly older than
the stored `originTimestamp` (5) is not discarded: the `!==` check applies
it, overwriting the stored position and velocity waypoint. -/
theorem c3_counterexample :
    (3 : ℚ) < 5 ∧
    (applyWaypoint ⟨⟨9, 9, 9⟩, ⟨0, 0, 0, 1⟩, ⟨2, 2, 2⟩, ⟨0, 0⟩, 3⟩
        ⟨5, ⟨1, 1, 1⟩, Vec3.zero, Vec3.zero, ⟨0, 0, 0, 1⟩, 0, 0⟩).positionCurrent
      = ⟨9, 9, 9⟩ ∧
    (applyWaypoint ⟨⟨9, 9, 9⟩, ⟨0, 0, 0, 1⟩, ⟨2, 2, 2⟩, ⟨0, 0⟩, 3⟩
        ⟨5, ⟨1, 1, 1⟩, Vec3.zero, Vec3.zero, ⟨0, 0, 0, 1⟩, 0, 0⟩).velocity
      = ⟨2, 2, 2⟩ := by
  decide

/-- C3 amended: the stored position and velocity waypoint is replaced
exactly when the sample's `timestamp` differs from the stored
`originTimestamp` — newer or older alike; only a sample whose timestamp
equals the stored one is discarded for position/velocity.  The waypoint
check never touches the smoothed (rendered) position. -/
theorem c3_amended_waypoint_replaced_iff_timestamp_differs (p : Presence) (st : FrameState) :
    (applyWaypoint p st).positionCurrent =
      (if st.originTimestamp = p.timestamp then st.positionCurrent else p.pos) ∧
    (applyWaypoint p st).velocity =
      (if st.originTimestamp = p.timestamp then st.velocity else p.vel) ∧
    (applyWaypoint p st).originTimestamp = p.timestamp ∧
    (applyWaypoint p st).smoothedPosition = st.smoothedPosition := by
  unfold applyWaypoint
  by_cases h : st.originTimestamp = p.timestamp <;> simp [h]

/-- C4 confirmed: a duplicate delivery of the very same sample (identical
`originTimestamp`) is a no-op: folding the sample's waypoint in twice equals
folding it once, a sample whose timestamp already equals the stored
`originTimestamp` leaves the whole entry untouched, and hence any sequence
of render ticks produces the same trajectory (final state after every tick
prefix) whether the sample was applied once or twice. -/
theorem c4_duplicate_sample_idempotent (p : Presence) (st : FrameState) (ds : List ℚ) :
    applyWaypoint p (applyWaypoint p st) = applyWaypoint p st ∧
    applyWaypoint p { st with originTimestamp := p.timestamp } =
      { st with originTimestamp := p.timestamp } ∧
    runFrames (some p) ds (applyWaypoint p (applyWaypoint p st)) =
      runFrames (some p) ds (applyWaypoint p st) := by
  refine ⟨applyWaypoint_idem p st, ?_, by rw [applyWaypoint_idem]⟩
  unfold applyWaypoint
  simp

/-- Unfolding of one frame tick when the sample's timestamp is already the
stored `originTimestamp` (shared helper): the waypoint is advanced by
`velocity * delta` and the rendered position lerps toward it with factor
`min(delta * 10, 1)`. -/
theorem useFrameStep_fields (p : Presence) (d : ℚ) (st : FrameState)
    (hts : st.originTimestamp = p.timestamp) :
    useFrameStep (some p) d st =
      { st with
        positionCurrent := Vec3.add st.positionCurrent (Vec3.scale d st.velocity)
        smoothedPosition := Vec3.lerp st.smoothedPosition
          (Vec3.add st.positionCurrent (Vec3.scale d st.velocity)) (min (d * 10) 1)
        quaternion := p.rot
        wheelRotation := p.wheel.x
        visibleSteering := p.wheel.y } := by
  simp [useFrameStep, applyWaypoint, hts]

/-- Invariant of the dead-reckoning run for a unit x-velocity sample (shared
helper): over nonnegative tick times the waypoint's x advances by the sum of
the elapsed times, and the rendered x stays within `[0, waypoint x]`,
positive as soon as the waypoint x is. -/
theorem runFrames_scenario_inv (p : Presence) (ds : List ℚ) :
    ∀ st : FrameState, (∀ d ∈ ds, 0 ≤ d) →
      st.originTimestamp = p.timestamp →
      st.velocity.x = 1 →
      0 ≤ st.smoothedPosition.x →
      st.smoothedPosition.x ≤ st.positionCurrent.x →
      (0 < st.positionCurrent.x → 0 < st.smoothedPosition.x) →
      (runFrames (some p) ds st).positionCurrent.x = st.positionCurrent.x + ds.sum ∧
      0 ≤ (runFrames (some p) ds st).smoothedPosition.x ∧
      (runFrames (some p) ds st).smoothedPosition.x ≤
        (runFrames (some p) ds st).positionCurrent.x ∧
      (0 < (runFrames (some p) ds st).positionCurrent.x →
        0 < (runFrames (some p) ds st).smoothedPosition.x) := by
  induction ds with
  | nil =>
    intro st _ _ _ h0 h1 h2
    exact ⟨by simp [runFrames], h0, h1, h2⟩
  | cons d ds ih =>
    intro st hds hts hvx h0 h1 h2
    have hd : 0 ≤ d := hds d (List.mem_cons_self d ds)
    have hds' : ∀ e ∈ ds, 0 ≤ e := fun e he => hds e (List.mem_cons_of_mem d he)
    have hstep := useFrameStep_fields p d st hts
    have hP : (useFrameStep (some p) d st).positionCurrent.x =
        st.positionCurrent.x + d := by
      rw [hstep]; simp [Vec3.add, Vec3.scale, hvx]
    have hs : (useFrameStep (some p) d st).smoothedPosition.x =
        st.smoothedPosition.x +
          (st.positionCurrent.x + d - st.smoothedPosition.x) * min (d * 10) 1 := by
      rw [hstep]; simp [Vec3.lerp, Vec3.add, Vec3.scale, hvx]
    have hts' : (useFrameStep (some p) d st).originTimestamp = p.timestamp := by
      rw [hstep]; exact hts
    have hvx' : (useFrameStep (some p) d st).velocity.x = 1 := by
      rw [hstep]; exact hvx
    have ha0 : 0 ≤ min (d * 10) 1 := le_min (by nlinarith) zero_le_one
    have ha1 : min (d * 10) 1 ≤ 1 := min_le_right _ _
    have hgap : 0 ≤ st.positionCurrent.x + d - st.smoothedPosition.x := by linarith
    have h0' : 0 ≤ (useFrameStep (some p) d st).smoothedPosition.x := by
      rw [hs]
      have := mul_nonneg hgap ha0
      linarith
    have h1' : (useFrameStep (some p) d st).smoothedPosition.x ≤
        (useFrameStep (some p) d st).positionCurrent.x := by
      rw [hs, hP]
      have := mul_le_of_le_one_right hgap ha1
      linarith
    have h2' : 0 < (useFrameStep (some p) d st).positionCurrent.x →
        0 < (useFrameStep (some p) d st).smoothedPosition.x := by
      intro hpos
      rw [hP] at hpos
      rw [hs]
      by_cases hd0 : d = 0
      · subst hd0
        have hmin : min ((0 : ℚ) * 10) 1 = 0 := by norm_num
        rw [hmin]
        have := h2 (by linarith)
        linarith
      · have hdpos : 0 < d := lt_of_le_of_ne hd (Ne.symm hd0)
        have hapos : 0 < min (d * 10) 1 := lt_min (by nlinarith) one_pos
        nlinarith [mul_nonneg h0 (sub_nonneg.mpr ha1), mul_pos hpos hapos]
    have key := ih (useFrameStep (some p) d st) hds' hts' hvx' h0' h1' h2'
    have hrw : runFrames (some p) (d :: ds) st =
        runFrames (some p) ds (useFrameStep (some p) d st) := rfl
    rw [hrw]
    refine ⟨?_, key.2.1, key.2.2.1, key.2.2.2⟩
    rw [key.1, hP]
    simp [List.sum_cons]
    ring

/-- C5 counterexample: after the Scenario B sample, a single render tick of
0.2 s saturates the smoothing factor (`min(0.2 * 10, 1) = 1`), so the
queried x-coordinate equals exactly 0.2 — not strictly less than 0.2 as the
claim demands. -/
theorem c5_counterexample :
    (runFrames (some sampleB) [1 / 5] initFrameState).smoothedPosition.x = 1 / 5 := by
  norm_num [runFrames, useFrameStep, applyWaypoint, sampleB, initFrameState,
    Vec3.add, Vec3.scale, Vec3.lerp, Vec3.zero, min_def]

/-- C5 amended: each render tick first advances the waypoint by
`velocity * delta` and then lerps the rendered position toward it with
factor `min(delta * 10, 1)` (the definition of `useFrameStep`);
consequently, after the Scenario B sample and any sequence of nonnegative
render ticks totalling 200 ms with no new sample, the queried x-coordinate
is strictly greater than 0 and at most 0.2 — with 0.2 attained exactly when
the final tick saturates the smoothing factor, so "strictly less than 0.2"
holds only for tick sequences whose last elapsed time stays below the 0.1 s
saturation threshold. -/
theorem c5_amended_scenario_b_bounds (ds : List ℚ)
    (hpos : ∀ d ∈ ds, 0 ≤ d) (hsum : ds.sum = 1 / 5) :
    0 < (runFrames (some sampleB) ds initFrameState).smoothedPosition.x ∧
    (runFrames (some sampleB) ds initFrameState).smoothedPosition.x ≤ 1 / 5 := by
  cases ds with
  | nil => norm_num at hsum
  | cons d ds =>
    have hstep2 : useFrameStep (some sampleB) d initFrameState =
        useFrameStep (some sampleB) d (applyWaypoint sampleB initFrameState) :=
      (useFrameStep_applyWaypoint sampleB d initFrameState).symm
    have hrun : runFrames (some sampleB) (d :: ds) initFrameState =
        runFrames (some sampleB) (d :: ds) (applyWaypoint sampleB initFrameState) := by
      show runFrames (some sampleB) ds (useFrameStep (some sampleB) d initFrameState) = _
      rw [hstep2]
      rfl
    obtain ⟨hsumx, hge, hle, himp⟩ :=
      runFrames_scenario_inv sampleB (d :: ds)
        (applyWaypoint sampleB initFrameState) hpos (by decide) (by decide)
        (by decide) (by decide) (by decide)
    have hbase : (applyWaypoint sampleB initFrameState).positionCurrent.x = 0 := by
      decide
    have hfin : (runFrames (some sampleB) (d :: ds)
        (applyWaypoint sampleB initFrameState)).positionCurrent.x = 1 / 5 := by
      rw [hsumx, hbase, hsum]
      norm_num
    rw [hrun]
    exact ⟨himp (by rw [hfin]; norm_num), by rw [← hfin]; exact hle⟩

/-- C5 witness: two 100 ms ticks after the Scenario B sample land strictly
between 0 and 0.2. -/
theorem c5_witness :
    0 < (runFrames (some sampleB) [1 / 10, 1 / 10]
        initFrameState).smoothedPosition.x ∧
    (runFrames (some sampleB) [1 / 10, 1 / 10]
        initFrameState).smoothedPosition.x ≤ 1 / 5 :=
  c5_amended_scenario_b_bounds [1 / 10, 1 / 10]
    (by norm_num [List.forall_mem_cons]) (by norm_num [List.sum_cons, List.sum_nil])

/-- C6 counterexample: when every attempt fails, the retry delays actually
waited are 1000, 2000, 3000 ms (`1000 * (retryCount + 1)`): the third wait
is 3000 ms, not the 4000 ms that doubling the previous 2000 ms wait would
give, so the backoff is not exponential. -/
theorem c6_counterexample :
    (runWatch (fun _ => true)).1 = [1000, 2000, 3000] ∧
    (3000 : ℕ) ≠ 2 * 2000 := by
  decide

/-- C6 amended: subscription-open failures retry with a capped linear
backoff: the k-th retry (k = 1, 2, 3) waits k·1000 ms, so the waits are a
prefix of [1000, 2000, 3000]; at most 3 retries are made, and the final
failure is logged exactly when all four attempts (the initial one and the
three retries) fail. -/
theorem c6_amended_linear_backoff_three_retries (fails : ℕ → Bool) :
    ((runWatch fails).1 = [] ∨ (runWatch fails).1 = [1000] ∨
      (runWatch fails).1 = [1000, 2000] ∨
      (runWatch fails).1 = [1000, 2000, 3000]) ∧
    (runWatch fails).1.length ≤ 3 ∧
    (runWatch fails).2 = (fails 0 && fails 1 && fails 2 && fails 3) := by
  cases h0 : fails 0 <;> cases h1 : fails 1 <;> cases h2 : fails 2 <;>
    cases h3 : fails 3 <;>
    simp [runWatch, runWatchAux, retryDelayMs, h0, h1, h2, h3]

/-- C7 counterexample: with a retry for participant "p" pending (its
subscription never opened, so `remoteBroadcastsRef` has no entry),
`cleanupWatchBroadcast "p"` leaves the pending retry in place, and when the
timer fires a further connect attempt for "p" happens after the removal —
the retry is not cancelled. -/
theorem c7_counterexample :
    (cleanupWatchBroadcast "p" ⟨[], [], [("p", 1)], []⟩).pendingRetries
        = [("p", 1)] ∧
    (fireRetry "p" 1
        (cleanupWatchBroadcast "p" ⟨[], [], [("p", 1)], []⟩)).connectAttempts
        = ["p"] := by
  decide

/-- C7 amended: removing a participant whose subscription never successfully
opened is a safe no-op on the broadcast and state maps, but it does not
cancel a pending subscription-open retry: `cleanupWatchBroadcast` never
touches the scheduled timers, so a retry scheduled before the removal still
fires and performs another connect attempt for that participant. -/
theorem c7_amended_cleanup_does_not_cancel_retry (id : String) (rc : ℕ)
    (st : ClientState) (h : id ∉ st.remoteBroadcasts) :
    cleanupWatchBroadcast id st = st ∧
    (cleanupWatchBroadcast id st).pendingRetries = st.pendingRetries ∧
    (fireRetry id rc (cleanupWatchBroadcast id st)).connectAttempts =
      st.connectAttempts ++ [id] := by
  have hcl : cleanupWatchBroadcast id st = st := by
    unfold cleanupWatchBroadcast
    rw [if_neg h]
  exact ⟨hcl, by rw [hcl], by rw [hcl]; rfl⟩

/-- C7 witness: the amended behaviour at the concrete counterexample
state. -/
theorem c7_witness :
    cleanupWatchBroadcast "p" ⟨[], [], [("p", 1)], []⟩
        = (⟨[], [], [("p", 1)], []⟩ : ClientState) ∧
    (cleanupWatchBroadcast "p" ⟨[], [], [("p", 1)], []⟩).pendingRetries
        = [("p", 1)] ∧
    (fireRetry "p" 1
        (cleanupWatchBroadcast "p" ⟨[], [], [("p", 1)], []⟩)).connectAttempts
        = [] ++ ["p"] :=
  c7_amended_cleanup_does_not_cancel_retry "p" 1 ⟨[], [], [("p", 1)], []⟩
    (by decide)

/-- C8 confirmed (modelled from the spec, the Connection source being
outside this repository): across consecutive connection failures
`currentBackoffMs` is non-decreasing and never exceeds `maxDelay`, provided
the initial delay does not (defaults 1000 and 30000 satisfy this), and one
successful connection resets it to the initial delay. -/
theorem c8_backoff_monotone_capped_resets (initDelay maxDelay n : ℕ)
    (h : initDelay ≤ maxDelay) :
    connectionDelayAfterFailures initDelay maxDelay n ≤
      connectionDelayAfterFailures initDelay maxDelay (n + 1) ∧
    connectionDelayAfterFailures initDelay maxDelay n ≤ maxDelay ∧
    connectionDelayAfterSuccess initDelay = initDelay := by
  have hcap : ∀ m, connectionDelayAfterFailures initDelay maxDelay m ≤ maxDelay := by
    intro m
    induction m with
    | zero => exact h
    | succ k _ => exact min_le_right _ _
  refine ⟨?_, hcap n, rfl⟩
  show connectionDelayAfterFailures initDelay maxDelay n ≤
    min (connectionDelayAfterFailures initDelay maxDelay n * 2) maxDelay
  exact le_min (by omega) (hcap n)

/-- C8 witness: the default configuration (initial 1000 ms, ceiling
30000 ms) after three consecutive failures. -/
theorem c8_witness :
    connectionDelayAfterFailures 1000 30000 3 ≤
      connectionDelayAfterFailures 1000 30000 4 ∧
    connectionDelayAfterFailures 1000 30000 3 ≤ 30000 ∧
    connectionDelayAfterSuccess 1000 = 1000 :=
  c8_backoff_monotone_capped_resets 1000 30000 3 (by norm_num)

/-- Spread selection against an absent old key returns the new object's key
unchanged (shared helper). -/
theorem pickField_none_right {α : Type} (a : Option α) : pickField a none = a := by
  cases a <;> rfl

/-- Merging the empty object over an existing one keeps every field
(shared helper): `{...old, ...{}} = old`. -/
theorem spreadMerge_empty_right (old : PresenceP) :
    spreadMerge old PresenceP.empty = old := by
  cases old
  rfl

/-- Merging a delta over the empty object yields exactly the delta's fields
(shared helper): `{...{}, ...p} = p`. -/
theorem spreadMerge_empty_left (p : PresenceP) :
    spreadMerge PresenceP.empty p = p := by
  cases p
  simp [spreadMerge, PresenceP.empty, pickField_none_right]

/-- Folding delta entries whose keys all differ from `k` leaves the store at
`k` unchanged (shared helper). -/
theorem foldl_merge_not_mem (l : List (String × PresenceP)) (s : PresenceStore)
    (k : String) (h : k ∉ l.map Prod.fst) :
    (l.foldl (fun st e =>
        setStore st e.1 (spreadMerge ((st e.1).getD PresenceP.empty) e.2)) s) k
      = s k := by
  induction l generalizing s with
  | nil => rfl
  | cons e l ih =>
    have hk : k ≠ e.1 := by
      intro hq
      exact h (by simp [List.map_cons, hq])
    have h' : k ∉ l.map Prod.fst := by
      intro hq
      exact h (by simp [List.map_cons, hq])
    rw [List.foldl_cons, ih _ h']
    simp [setStore, hk]

/-- Folding a delta with unique keys rewrites a contained key with the
spread merge of its old entry and the delta's object (shared helper). -/
theorem foldl_merge_mem (l : List (String × PresenceP)) (s : PresenceStore)
    (k : String) (p : PresenceP) (hmem : (k, p) ∈ l)
    (hnd : (l.map Prod.fst).Nodup) :
    (l.foldl (fun st e =>
        setStore st e.1 (spreadMerge ((st e.1).getD PresenceP.empty) e.2)) s) k
      = some (spreadMerge ((s k).getD PresenceP.empty) p) := by
  induction l generalizing s with
  | nil => simp at hmem
  | cons e l ih =>
    rw [List.map_cons, List.nodup_cons] at hnd
    rw [List.foldl_cons]
    rcases List.mem_cons.mp hmem with he | hl
    · have hk : e.1 = k := by rw [← he]
      have hp : e.2 = p := by rw [← he]
      have hnot : k ∉ l.map Prod.fst := by
        rw [← hk]; exact hnd.1
      rw [foldl_merge_not_mem l _ k hnot]
      simp [setStore, hk, hp]
    · have hkin : k ∈ l.map Prod.fst := by
        exact List.mem_map.mpr ⟨(k, p), hl, rfl⟩
      have hk : k ≠ e.1 := by
        intro hq
        rw [hq] at hkin
        exact hnd.1 hkin
      rw [ih _ hl hnd.2]
      simp [setStore, hk]

/-- C9 counterexample: a `sync-presence` delta naming the local player's own
id is deleted before merging (`delete usersToUpdate[selfId]`), so with an
empty store no entry is created for it — contradicting "a delta for an id
with no existing entry creates an entry containing exactly the delta's
fields". -/
theorem c9_counterexample :
    syncPresence "me" [("me", ⟨some "Bob", none, none, none, none, some 7⟩)]
        emptyStore "me" = none ∧
    (none : Option PresenceP) ≠
      some ⟨some "Bob", none, none, none, none, some 7⟩ := by
  constructor
  · rfl
  · decide

/-- C9 amended: for every participant other than the local player (whose
delta entry is deleted before merging, leaving its stored presence
untouched): a participant not named in the delta keeps its stored presence
unchanged; a named participant's entry becomes the spread merge of its old
entry (or the empty object) with the delta's object, so fields absent from
the partial sample keep their previous values (merging an all-absent object
changes nothing) and a delta for an id with no existing entry creates an
entry containing exactly the delta's fields. -/
theorem c9_amended_delta_merge_excludes_self (selfId idq other : String)
    (p old : PresenceP) (delta : List (String × PresenceP)) (store : PresenceStore)
    (hnodup : (delta.map Prod.fst).Nodup) (hmem : (idq, p) ∈ delta)
    (hne : idq ≠ selfId) (hother : other ∉ delta.map Prod.fst) :
    syncPresence selfId delta store other = store other ∧
    syncPresence selfId delta store selfId = store selfId ∧
    syncPresence selfId delta store idq =
      some (spreadMerge ((store idq).getD PresenceP.empty) p) ∧
    spreadMerge old PresenceP.empty = old ∧
    spreadMerge PresenceP.empty p = p := by
  have hsub : List.Sublist ((delta.filter (fun e => e.1 ≠ selfId)).map Prod.fst)
      (delta.map Prod.fst) := (List.filter_sublist delta).map Prod.fst
  have hnodup' : ((delta.filter (fun e => e.1 ≠ selfId)).map Prod.fst).Nodup :=
    hnodup.sublist hsub
  refine ⟨?_, ?_, ?_, spreadMerge_empty_right old, spreadMerge_empty_left p⟩
  · have hother' : other ∉ (delta.filter (fun e => e.1 ≠ selfId)).map Prod.fst := by
      intro hq
      exact hother (hsub.mem hq)
    simpa [syncPresence] using
      foldl_merge_not_mem (delta.filter (fun e => e.1 ≠ selfId)) store other hother'
  · have hself : selfId ∉ (delta.filter (fun e => e.1 ≠ selfId)).map Prod.fst := by
      intro hq
      obtain ⟨e, hef, heq⟩ := List.mem_map.mp hq
      have := List.mem_filter.mp hef
      simp [heq] at this
    simpa [syncPresence] using
      foldl_merge_not_mem (delta.filter (fun e => e.1 ≠ selfId)) store selfId hself
  · have hmem' : (idq, p) ∈ delta.filter (fun e => e.1 ≠ selfId) :=
      List.mem_filter.mpr ⟨hmem, by simp [hne]⟩
    simpa [syncPresence] using
      foldl_merge_mem (delta.filter (fun e => e.1 ≠ selfId)) store idq p hmem' hnodup'

/-- C9 witness: the amended merge semantics at a one-entry delta for "a"
delivered to local player "me" over an empty store. -/
theorem c9_witness :
    syncPresence "me" [("a", ⟨some "Bob", none, none, none, none, some 7⟩)]
        emptyStore "z" = emptyStore "z" ∧
    syncPresence "me" [("a", ⟨some "Bob", none, none, none, none, some 7⟩)]
        emptyStore "me" = emptyStore "me" ∧
    syncPresence "me" [("a", ⟨some "Bob", none, none, none, none, some 7⟩)]
        emptyStore "a" =
      some (spreadMerge ((emptyStore "a").getD PresenceP.empty)
        ⟨some "Bob", none, none, none, none, some 7⟩) ∧
    spreadMerge ⟨none, none, none, none, none, some 3⟩ PresenceP.empty =
      ⟨none, none, none, none, none, some 3⟩ ∧
    spreadMerge PresenceP.empty ⟨some "Bob", none, none, none, none, some 7⟩ =
      ⟨some "Bob", none, none, none, none, some 7⟩ :=
  c9_amended_delta_merge_excludes_self "me" "a" "z"
    ⟨some "Bob", none, none, none, none, some 7⟩
    ⟨none, none, none, none, none, some 3⟩
    [("a", ⟨some "Bob", none, none, none, none, some 7⟩)] emptyStore
    (by decide) (by decide) (by decide) (by decide)

/-- Rendered-id extraction of the index-capped render list, for an arbitrary
start index of the enumeration (shared helper): only the first
`m - 3 - n` entries survive. -/
theorem renderAux_filterMap (m : ℕ) (ids : List String) : ∀ n : ℕ,
    (((ids.enumFrom n).map
        (fun e => if e.1 < m - 3 then some e.2 else none)).filterMap
      (fun o => o)) = ids.take (m - 3 - n) := by
  induction ids with
  | nil => intro n; simp [List.enumFrom]
  | cons a l ih =>
    intro n
    by_cases h : n < m - 3
    · have heq : m - 3 - n = (m - 3 - (n + 1)) + 1 := by omega
      simp [List.enumFrom, h, ih (n + 1), heq]
    · have h0 : m - 3 - n = 0 := by omega
      have h1 : m - 3 - (n + 1) = 0 := by omega
      simp [List.enumFrom, h, ih (n + 1), h0, h1]

/-- Entry `i` of the index-capped render list, for an arbitrary start index
of the enumeration (shared helper). -/
theorem renderAux_get? (m : ℕ) (ids : List String) : ∀ n i : ℕ,
    ((ids.enumFrom n).map
        (fun e => if e.1 < m - 3 then some e.2 else none)).get? i =
      (ids.get? i).map (fun a => if n + i < m - 3 then some a else none) := by
  induction ids with
  | nil => intro n i; simp [List.enumFrom]
  | cons a l ih =>
    intro n i
    cases i with
    | zero => simp [List.enumFrom]
    | succ j =>
      have harith : n + 1 + j = n + (j + 1) := by omega
      simpa [List.enumFrom, harith] using ih (n + 1) j

/-- C10 confirmed: the OtherPlayers render instantiates at most
`MAX_VEHICLE_INSTANCES - 3` remote players — the id at index `i` of the
client's player list is rendered if and only if `i < MAX_VEHICLE_INSTANCES -
3` (ids beyond the cap map to `null`), so the rendered ids are exactly the
first `MAX_VEHICLE_INSTANCES - 3` stored ids. -/
theorem c10_render_cap (m : ℕ) (ids : List String) (i : ℕ) (h : i < ids.length) :
    renderedIds m ids = ids.take (m - 3) ∧
    (renderedIds m ids).length ≤ m - 3 ∧
    ((otherPlayersRender m ids).get? i = some (some (ids.get ⟨i, h⟩)) ↔
      i < m - 3) := by
  have htake : renderedIds m ids = ids.take (m - 3) := by
    have := renderAux_filterMap m ids 0
    simpa [renderedIds, otherPlayersRender, List.enum] using this
  refine ⟨htake, ?_, ?_⟩
  · rw [htake]
    simp [List.length_take]
  · have hg : (otherPlayersRender m ids).get? i =
        (ids.get? i).map (fun a => if 0 + i < m - 3 then some a else none) := by
      simpa [otherPlayersRender, List.enum] using renderAux_get? m ids 0 i
    have hsome : ids.get? i = some (ids.get ⟨i, h⟩) := List.get?_eq_get h
    rw [hg, hsome]
    by_cases hi : i < m - 3 <;> simp [hi]

/-- C10 witness: five available vehicle instances over three stored ids
render exactly the first two, and index 1 is rendered. -/
theorem c10_witness :
    renderedIds 5 ["a", "b", "c"] = ["a", "b", "c"].take (5 - 3) ∧
    (renderedIds 5 ["a", "b", "c"]).length ≤ 5 - 3 ∧
    ((otherPlayersRender 5 ["a", "b", "c"]).get? 1 =
        some (some (["a", "b", "c"].get ⟨1, by decide⟩)) ↔ 1 < 5 - 3) :=
  c10_render_cap 5 ["a", "b", "c"] 1 (by decide)
